import Mathlib

/-!
Verification of the argonaut multi-pod fan-out engine.

The definitions below are a shallow embedding of the Go sources:
the input broadcaster (`stdinToPods`, `writeToPods`, `closePipes` from
exec.go), the per-pod output pump (`readRoutineToStdout`), the one-shot
exec loop and the log retrieval loops (`MultiExec`, `GetMultiLogs`), and
the color-slot assignment of both commands.  Theorems settle the spec
claims C1..C10 against these definitions.
-/

namespace Argonaut

/-- Error string produced by Go's `io.Pipe` when writing on a broken pipe. -/
def pipeErrMsg : String := "io: read/write on closed pipe"

/-- One `io.PipeWriter` sink of the broadcast channel set.  `received` is the
sequence of byte chunks successfully written to it, `closed` the writer-closed
flag, and `failing` models a pipe whose reader side has failed, so that every
`Write` on it returns an error. -/
structure PipeWriter where
  received : List String
  closed : Bool
  failing : Bool
deriving DecidableEq, Repr

/-- `pipe.Write(data)`: appends the chunk on success, errors when the pipe is
broken or already closed. -/
def pipeWrite (p : PipeWriter) (data : String) : PipeWriter × Option String :=
  if p.failing || p.closed then (p, some pipeErrMsg)
  else ({ p with received := p.received ++ [data] }, none)

/-- A sink that accepts writes: not failing and not closed. -/
def sinkOk (p : PipeWriter) : Prop := p.failing = false ∧ p.closed = false

instance (p : PipeWriter) : Decidable (sinkOk p) := by
  unfold sinkOk; infer_instance

/-- The state of a healthy sink after one broadcast write of `input`:
the line is written with a line terminator appended. -/
def recvLine (input : String) (p : PipeWriter) : PipeWriter :=
  { p with received := p.received ++ [input ++ "\n"] }

/-- Embedding of `writeToPods`: writes `input + "\n"` to each consumer pipe in
order, returning at the first write error. -/
def writeToPods : List PipeWriter → String → List PipeWriter × Option String
  | [], _ => ([], none)
  | p :: rest, input =>
    match pipeWrite p (input ++ "\n") with
    | (p', some e) => (p' :: rest, some e)
    | (p', none) =>
      let r := writeToPods rest input
      (p' :: r.1, r.2)

/-- Embedding of `closePipes`: closes every writer in the slice (a close error
is only printed, the loop continues). -/
def closePipes (writes : List PipeWriter) : List PipeWriter :=
  writes.map (fun p => { p with closed := true })

/-- Embedding of `stdinToPods`: scans console input line by line, broadcasting
each line to all pipes; on a broadcast write error it closes all pipes and
returns the error; when the scanner stops, a scanner error (`consolereader.Err`,
modelled by the final `Option String`) likewise closes all pipes and is
returned, and a clean end of input returns success. -/
def stdinToPods (writes : List PipeWriter) :
    List String → Option String → List PipeWriter × Option String
  | [], none => (writes, none)
  | [], some e => (closePipes writes, some e)
  | line :: rest, scanErr =>
    match writeToPods writes line with
    | (ws, some e) => (closePipes ws, some e)
    | (ws, none) => stdinToPods ws rest scanErr

lemma pipeWrite_ok {p : PipeWriter} (h : sinkOk p) (data : String) :
    pipeWrite p data = ({ p with received := p.received ++ [data] }, none) := by
  obtain ⟨h1, h2⟩ := h
  simp [pipeWrite, h1, h2]

lemma pipeWrite_fail {p : PipeWriter} (h : p.failing = true) (data : String) :
    pipeWrite p data = (p, some pipeErrMsg) := by
  simp [pipeWrite, h]

/-- `writeToPods` over all-healthy sinks delivers the line (with terminator)
to every sink, in order, with no error. -/
lemma writeToPods_ok {ws : List PipeWriter} (h : ∀ p ∈ ws, sinkOk p)
    (input : String) :
    writeToPods ws input = (ws.map (recvLine input), none) := by
  induction ws with
  | nil => rfl
  | cons p rest ih =>
    have hp := h p (by simp)
    have hrest : ∀ q ∈ rest, sinkOk q := fun q hq => h q (by simp [hq])
    simp only [writeToPods, pipeWrite_ok hp, ih hrest, List.map_cons]
    rfl

/-- `writeToPods` with a first failing sink at position `ws₁.length`:
the healthy sinks before it receive the line, the failing sink and every sink
after it are untouched, and the pipe error is returned. -/
lemma writeToPods_fail {ws₁ : List PipeWriter} {bad : PipeWriter}
    (ws₂ : List PipeWriter) (h₁ : ∀ p ∈ ws₁, sinkOk p) (hbad : bad.failing = true)
    (input : String) :
    writeToPods (ws₁ ++ bad :: ws₂) input =
      (ws₁.map (recvLine input) ++ bad :: ws₂, some pipeErrMsg) := by
  induction ws₁ with
  | nil => simp [writeToPods, pipeWrite_fail hbad]
  | cons p rest ih =>
    have hp := h₁ p (by simp)
    have hrest : ∀ q ∈ rest, sinkOk q := fun q hq => h₁ q (by simp [hq])
    simp [writeToPods, pipeWrite_ok hp, ih hrest, List.append_eq, recvLine]

lemma recvLine_ok {p : PipeWriter} (h : sinkOk p) (input : String) :
    sinkOk (recvLine input p) := h

lemma closePipes_received (ws : List PipeWriter) :
    (closePipes ws).map PipeWriter.received = ws.map PipeWriter.received := by
  simp [closePipes]

lemma closePipes_closed (ws : List PipeWriter) :
    ∀ p ∈ closePipes ws, p.closed = true := by
  intro p hp
  simp only [closePipes, List.mem_map] at hp
  obtain ⟨q, _, rfl⟩ := hp
  rfl

/-- Clean broadcast: with all sinks healthy, `stdinToPods` delivers every line
to every sink in order and returns success, closing nothing. -/
lemma stdinToPods_clean {ws : List PipeWriter} (h : ∀ p ∈ ws, sinkOk p)
    (lines : List String) :
    stdinToPods ws lines none =
      (ws.map (fun p =>
        { p with received := p.received ++ lines.map (· ++ "\n") }), none) := by
  induction lines generalizing ws with
  | nil => simp [stdinToPods]
  | cons l rest ih =>
    have hmap : ∀ p ∈ ws.map (recvLine l), sinkOk p := by
      intro p hp
      simp only [List.mem_map] at hp
      obtain ⟨q, hq, rfl⟩ := hp
      exact recvLine_ok (h q hq) l
    simp only [stdinToPods, writeToPods_ok h l, ih hmap, List.map_map]
    congr 1
    apply List.map_congr_left
    intro p _
    simp [recvLine, Function.comp, List.append_assoc]

/-- A fresh healthy sink. -/
def okSink : PipeWriter := ⟨[], false, false⟩

/-- A fresh sink whose writes fail. -/
def badSink : PipeWriter := ⟨[], false, true⟩

/-- Claim C10: broadcasting one input line visits the sinks in registration
order, appending a line terminator to the line for each write, and stops at
the first sink whose write fails: every sink before the failing one has
received the line, the failing sink and every sink after it receive
nothing. -/
theorem claim_C10_write_order_first_failure
    (ws₁ ws₂ : List PipeWriter) (bad : PipeWriter) (input : String)
    (h₁ : ∀ p ∈ ws₁, sinkOk p) (hbad : bad.failing = true) :
    (writeToPods (ws₁ ++ bad :: ws₂) input).2 = some pipeErrMsg ∧
    (writeToPods (ws₁ ++ bad :: ws₂) input).1.map PipeWriter.received =
      ws₁.map (fun p => p.received ++ [input ++ "\n"]) ++
        bad.received :: ws₂.map PipeWriter.received := by
  rw [writeToPods_fail ws₂ h₁ hbad input]
  simp [recvLine]

theorem claim_C10_witness :
    (∀ p ∈ [okSink], sinkOk p) ∧ badSink.failing = true ∧
    ((writeToPods ([okSink] ++ badSink :: [okSink]) "ls").2 = some pipeErrMsg ∧
     (writeToPods ([okSink] ++ badSink :: [okSink]) "ls").1.map PipeWriter.received =
       [okSink].map (fun p => p.received ++ ["ls" ++ "\n"]) ++
         badSink.received :: [okSink].map PipeWriter.received) :=
  ⟨by decide, rfl,
    claim_C10_write_order_first_failure [okSink] [okSink] badSink "ls"
      (by decide) rfl⟩

/-- Claim C1: if a broadcast write to any single sink fails, `stdinToPods`
closes every sink of the broadcast channel set (not only the failing one),
broadcasts no further lines to any sink (the received chunks show at most the
first line, delivered only to the sinks before the failing one), and returns
the write error. -/
theorem claim_C1_write_failure_closes_all
    (ws₁ ws₂ : List PipeWriter) (bad : PipeWriter) (l : String)
    (lines : List String) (scanErr : Option String)
    (h₁ : ∀ p ∈ ws₁, sinkOk p) (hbad : bad.failing = true) :
    (stdinToPods (ws₁ ++ bad :: ws₂) (l :: lines) scanErr).2 = some pipeErrMsg ∧
    (∀ p ∈ (stdinToPods (ws₁ ++ bad :: ws₂) (l :: lines) scanErr).1,
      p.closed = true) ∧
    (stdinToPods (ws₁ ++ bad :: ws₂) (l :: lines) scanErr).1.map
        PipeWriter.received =
      ws₁.map (fun p => p.received ++ [l ++ "\n"]) ++
        bad.received :: ws₂.map PipeWriter.received := by
  have hw : stdinToPods (ws₁ ++ bad :: ws₂) (l :: lines) scanErr
      = (closePipes (ws₁.map (recvLine l) ++ bad :: ws₂), some pipeErrMsg) := by
    simp only [stdinToPods, writeToPods_fail ws₂ h₁ hbad l]
  rw [hw]
  refine ⟨rfl, closePipes_closed _, ?_⟩
  rw [closePipes_received]
  simp [recvLine]

theorem claim_C1_witness :
    (∀ p ∈ [okSink], sinkOk p) ∧ badSink.failing = true ∧
    ((stdinToPods ([okSink] ++ badSink :: []) ("a" :: ["b"]) none).2 =
        some pipeErrMsg ∧
     (∀ p ∈ (stdinToPods ([okSink] ++ badSink :: []) ("a" :: ["b"]) none).1,
        p.closed = true) ∧
     (stdinToPods ([okSink] ++ badSink :: []) ("a" :: ["b"]) none).1.map
         PipeWriter.received =
       [okSink].map (fun p => p.received ++ ["a" ++ "\n"]) ++
         badSink.received :: ([] : List PipeWriter).map PipeWriter.received) :=
  ⟨by decide, rfl,
    claim_C1_write_failure_closes_all [okSink] [] badSink "a" ["b"] none
      (by decide) rfl⟩

/-- Claim C8: on clean end of console input (no read or write error),
`stdinToPods` returns success and leaves every sink open: no sink's closed
flag is set, and each sink has received exactly the broadcast lines. -/
theorem claim_C8_clean_eoi_leaves_sinks_open
    (ws : List PipeWriter) (lines : List String) (h : ∀ p ∈ ws, sinkOk p) :
    (stdinToPods ws lines none).2 = none ∧
    (∀ p ∈ (stdinToPods ws lines none).1, p.closed = false) ∧
    (stdinToPods ws lines none).1 =
      ws.map (fun p =>
        { p with received := p.received ++ lines.map (· ++ "\n") }) := by
  refine ⟨by rw [stdinToPods_clean h lines], ?_, by rw [stdinToPods_clean h lines]⟩
  intro p hp
  rw [stdinToPods_clean h lines] at hp
  simp only [List.mem_map] at hp
  obtain ⟨q, hq, rfl⟩ := hp
  exact (h q hq).2

theorem claim_C8_witness :
    (∀ p ∈ [okSink, okSink], sinkOk p) ∧
    ((stdinToPods [okSink, okSink] ["x", "y"] none).2 = none ∧
     (∀ p ∈ (stdinToPods [okSink, okSink] ["x", "y"] none).1, p.closed = false) ∧
     (stdinToPods [okSink, okSink] ["x", "y"] none).1 =
       [okSink, okSink].map (fun p =>
         { p with received := p.received ++ ["x", "y"].map (· ++ "\n") })) :=
  ⟨by decide, claim_C8_clean_eoi_leaves_sinks_open [okSink, okSink] ["x", "y"]
    (by decide)⟩

/-! ### Terminal sanitization and the one-shot exec loop -/

/-- The ASCII escape character that introduces terminal control sequences. -/
def escChar : Char := Char.ofNat 27

/-- Whether a string still contains a raw escape character. -/
def containsEsc (s : String) : Bool := s.toList.any (fun c => c = escChar)

/-- Model of the external `vtclean.Clean(line, false)` sanitizer used by the
output pump: characters from an escape character up to the terminating letter
of the sequence are dropped, as are other non-printable control characters;
ordinary characters are kept.  The boolean state records being inside an
escape sequence. -/
def cleanChars : List Char → Bool → List Char
  | [], _ => []
  | c :: cs, true =>
    if c.isAlpha then cleanChars cs false else cleanChars cs true
  | c :: cs, false =>
    if c = escChar then cleanChars cs true
    else if c.toNat < 32 && c ≠ '\t' then cleanChars cs false
    else c :: cleanChars cs false

/-- `vtclean.Clean(line, false)` on a whole line. -/
def vtcleanClean (s : String) : String := String.mk (cleanChars s.toList false)

lemma cleanChars_no_esc (l : List Char) (b : Bool) :
    escChar ∉ cleanChars l b := by
  induction l generalizing b with
  | nil => simp [cleanChars]
  | cons c cs ih =>
    cases b with
    | true =>
      simp only [cleanChars]
      split <;> exact ih _
    | false =>
      simp only [cleanChars]
      split
      · exact ih _
      · split
        · exact ih _
        · intro hmem
          rcases List.mem_cons.mp hmem with h | h
          · rename_i hne _
            exact hne h.symm
          · exact ih _ h

lemma vtcleanClean_no_esc (s : String) : containsEsc (vtcleanClean s) = false := by
  simp only [containsEsc, vtcleanClean]
  rw [List.any_eq_false]
  intro c hc
  simp only [decide_eq_true_eq]
  intro hceq
  subst hceq
  exact cleanChars_no_esc s.toList false hc

/-- One pod of an exec invocation: `openErr` is the result of creating the
stream executor for its exec endpoint, `runErr` the result of running the
session stream, and `outBytes` the raw bytes the session writes to the
console while it runs. -/
structure ExecPod where
  name : String
  openErr : Option String
  runErr : Option String
  outBytes : String
deriving DecidableEq, Repr

/-- Observable outcome of the one-shot exec loop: the console bytes, the pods
whose endpoint executor was created, and the pods whose session was run. -/
structure OneShotOut where
  console : String
  opened : List String
  sessions : List String
deriving DecidableEq, Repr

/-- The header `MultiExec` prints before each one-shot session. -/
def oneShotHeader (command name : String) : String :=
  "\"" ++ command ++ "\" for pod " ++ name ++ ":\n"

/-- Concatenation of rendered fragments over a target list. -/
def concatMap (f : α → String) : List α → String
  | [] => ""
  | a :: l => f a ++ concatMap f l

/-- The console block a successful one-shot session produces for one pod. -/
def oneShotBlock (command : String) (p : ExecPod) : String :=
  oneShotHeader command p.name ++ p.outBytes

/-- Embedding of the one-shot branch of `MultiExec`'s pod loop (no stdin, no
TTY): per pod, create the executor (returning its error immediately on
failure), print the header, run the session synchronously with the console as
its stdout, and return the session error immediately on failure. -/
def execOneShotLoop (command : String) : List ExecPod → OneShotOut × Option String
  | [] => (⟨"", [], []⟩, none)
  | p :: rest =>
    match p.openErr with
    | some e => (⟨"", [p.name], []⟩, some e)
    | none =>
      match p.runErr with
      | some e =>
        (⟨oneShotHeader command p.name ++ p.outBytes, [p.name], [p.name]⟩, some e)
      | none =>
        let r := execOneShotLoop command rest
        (⟨oneShotHeader command p.name ++ p.outBytes ++ r.1.console,
          p.name :: r.1.opened, p.name :: r.1.sessions⟩, r.2)

/-- An empty namespace argument selects the default namespace. -/
def resolveNamespace (ns : String) : String := if ns = "" then "default" else ns

/-- Embedding of `MultiExec` in one-shot mode: resolve the namespace, fail
with the no-pods error when the target set is empty (opening no endpoint and
running no session), else run the pod loop. -/
def multiExecOneShot (ns command : String) (pods : List ExecPod) :
    OneShotOut × Option String :=
  if pods.isEmpty then
    (⟨"", [], []⟩, some ("No pods in namespace: " ++ resolveNamespace ns))
  else execOneShotLoop command pods

/-- A one-shot stream whose bytes contain a raw ANSI color sequence. -/
def escDemo : String := "\x1b[31mred\n"

lemma oneShotLoop_allOk {pods : List ExecPod} (command : String)
    (h : ∀ p ∈ pods, p.openErr = none ∧ p.runErr = none) :
    execOneShotLoop command pods =
      (⟨concatMap (oneShotBlock command) pods,
        pods.map ExecPod.name, pods.map ExecPod.name⟩, none) := by
  induction pods with
  | nil => rfl
  | cons p rest ih =>
    obtain ⟨h1, h2⟩ := h p (by simp)
    have hrest : ∀ q ∈ rest, q.openErr = none ∧ q.runErr = none :=
      fun q hq => h q (by simp [hq])
    simp [execOneShotLoop, h1, h2, ih hrest, concatMap, oneShotBlock,
      String.append_assoc]

lemma oneShotLoop_firstRunErr {good : List ExecPod} {bad : ExecPod} {e : String}
    (rest₂ : List ExecPod) (command : String)
    (hgood : ∀ p ∈ good, p.openErr = none ∧ p.runErr = none)
    (hopen : bad.openErr = none) (hrun : bad.runErr = some e) :
    execOneShotLoop command (good ++ bad :: rest₂) =
      (⟨concatMap (oneShotBlock command) good ++ oneShotBlock command bad,
        good.map ExecPod.name ++ [bad.name],
        good.map ExecPod.name ++ [bad.name]⟩, some e) := by
  induction good with
  | nil => simp [execOneShotLoop, hopen, hrun, concatMap, oneShotBlock]
  | cons p rest ih =>
    obtain ⟨h1, h2⟩ := hgood p (by simp)
    have hrest : ∀ q ∈ rest, q.openErr = none ∧ q.runErr = none :=
      fun q hq => hgood q (by simp [hq])
    simp [execOneShotLoop, h1, h2, ih hrest, concatMap, oneShotBlock,
      String.append_assoc]

/-- Claim C2 counterexample: in one-shot mode the session's stdout is the
console itself, so a stream containing a raw ANSI escape sequence reaches the
console unfiltered, even though the sanitizer would have removed it. -/
theorem claim_C2_counterexample :
    containsEsc
      (multiExecOneShot "" "cat" [⟨"p", none, none, escDemo⟩]).1.console = true ∧
    containsEsc (vtcleanClean escDemo) = false := by
  refine ⟨by decide, by decide⟩

/-- Claim C3: in one-shot mode (no stdin, no TTY) on a non-empty target set
with every endpoint opening successfully, sessions run strictly sequentially
in target-set order: with no session failures every target runs exactly one
session and the console shows the per-target blocks in that order with
success returned; and when a session fails, the first session error
encountered is returned as the operation's error, after exactly the sessions
up to and including the failing one have run. -/
theorem claim_C3_oneshot_sequential (ns command : String) (pods : List ExecPod)
    (hopen : ∀ p ∈ pods, p.openErr = none) :
    ((∀ p ∈ pods, p.runErr = none) → pods ≠ [] →
      multiExecOneShot ns command pods =
        (⟨concatMap (oneShotBlock command) pods,
          pods.map ExecPod.name, pods.map ExecPod.name⟩, none)) ∧
    (∀ good bad rest₂ e, pods = good ++ bad :: rest₂ →
      (∀ p ∈ good, p.runErr = none) → bad.runErr = some e →
      multiExecOneShot ns command pods =
        (⟨concatMap (oneShotBlock command) good ++ oneShotBlock command bad,
          good.map ExecPod.name ++ [bad.name],
          good.map ExecPod.name ++ [bad.name]⟩, some e)) := by
  constructor
  · intro hrun hne
    have hne' : pods.isEmpty = false := by
      cases pods
      · exact absurd rfl hne
      · rfl
    simp only [multiExecOneShot, hne', Bool.false_eq_true, if_false]
    exact oneShotLoop_allOk command (fun p hp => ⟨hopen p hp, hrun p hp⟩)
  · intro good bad rest₂ e hdecomp hgood hbad
    subst hdecomp
    have hne' : (good ++ bad :: rest₂).isEmpty = false := by
      cases good <;> rfl
    simp only [multiExecOneShot, hne', Bool.false_eq_true, if_false]
    exact oneShotLoop_firstRunErr rest₂ command
      (fun p hp => ⟨hopen p (by simp [hp]), hgood p hp⟩)
      (hopen bad (by simp)) hbad

/-- A pod whose one-shot session succeeds. -/
def podA : ExecPod := ⟨"a", none, none, "outA\n"⟩

/-- A pod whose one-shot session fails. -/
def podBFail : ExecPod := ⟨"b", none, some "boom", "outB"⟩

theorem claim_C3_witness :
    (∀ p ∈ [podA, podBFail], p.openErr = none) ∧
    (∀ p ∈ [podA], p.runErr = none) ∧ podBFail.runErr = some "boom" ∧
    multiExecOneShot "" "date" [podA, podBFail] =
      (⟨concatMap (oneShotBlock "date") [podA] ++ oneShotBlock "date" podBFail,
        [podA].map ExecPod.name ++ [podBFail.name],
        [podA].map ExecPod.name ++ [podBFail.name]⟩, some "boom") :=
  ⟨by decide, by decide, rfl,
    (claim_C3_oneshot_sequential "" "date" [podA, podBFail] (by decide)).2
      [podA] podBFail [] "boom" rfl (by decide) rfl⟩

/-! ### Log retrieval and the interactive exec setup loop -/

/-- Result of the final `ReadLine` of a log stream: clean end of stream or a
genuine read failure. -/
inductive ReadEnd
  | eof
  | failed (msg : String)
deriving DecidableEq, Repr

/-- The message carried by a terminal read result (`io.EOF` prints as `EOF`). -/
def readEndMsg : ReadEnd → String
  | ReadEnd.eof => "EOF"
  | ReadEnd.failed m => m

/-- Hex digit used by the quoting model. -/
def hexDig (n : Nat) : Char :=
  if n < 10 then Char.ofNat (48 + n) else Char.ofNat (87 + n)

/-- Escaping of one character under Go's `%q` verb (byte-range model):
backslash and quote are escaped, control characters become `\xNN`, ordinary
characters are kept. -/
def goQuoteChar (c : Char) : List Char :=
  if c = '\\' then ['\\', '\\']
  else if c = '"' then ['\\', '"']
  else if c.toNat < 32 then ['\\', 'x', hexDig (c.toNat / 16), hexDig (c.toNat % 16)]
  else [c]

def quoteChars : List Char → List Char
  | [] => []
  | c :: cs => goQuoteChar c ++ quoteChars cs

/-- Model of Go's `%q` formatting used by the log-follow pump. -/
def goQuote (s : String) : String :=
  "\"" ++ String.mk (quoteChars s.toList) ++ "\""

/-- One pod of a logs invocation: `openErr` is the result of `req.Stream()`,
`content`/`copyErr` describe the non-follow `io.Copy` of the stream, and
`lines`/`endErr` describe the follow-mode line reads. -/
structure LogPod where
  name : String
  openErr : Option String
  content : String
  copyErr : Option String
  lines : List String
  endErr : ReadEnd
deriving DecidableEq, Repr

/-- Header `GetMultiLogs` prints before each non-follow log dump
(`fmt.Println("Logs for pod", pod.Name, ":")`). -/
def logsHeader (name : String) : String := "Logs for pod " ++ name ++ " :\n"

/-- The warning a log-follow pump prints when a read returns an error
(`fmt.Println("Error from routine for", podName, ":", err)`). -/
def routineErrLine (name cause : String) : String :=
  "Error from routine for " ++ name ++ " : " ++ cause ++ "\n"

/-- Embedding of the log-follow goroutine body: read lines until the first
read error, printing each line through `%q` with the pod label, then print the
error (whatever it is, including `io.EOF`) and exit. -/
def followPump (name : String) : List String → ReadEnd → List String
  | [], e => [routineErrLine name (readEndMsg e)]
  | l :: rest, e =>
    ("POD " ++ name ++ ": " ++ goQuote l ++ "\n") :: followPump name rest e

/-- Embedding of the non-follow branch of `GetMultiLogs`'s pod loop: per pod,
open the stream (returning its error immediately), print the header, copy the
whole stream to the console, and return a copy error immediately.  Results:
console bytes, pods whose stream was opened, and the returned error. -/
def logsNoFollowLoop : List LogPod → String × List String × Option String
  | [] => ("", [], none)
  | p :: rest =>
    match p.openErr with
    | some e => ("", [], some e)
    | none =>
      match p.copyErr with
      | some e => (logsHeader p.name ++ p.content, [p.name], some e)
      | none =>
        let r := logsNoFollowLoop rest
        (logsHeader p.name ++ p.content ++ r.1, p.name :: r.2.1, r.2.2)

/-- Embedding of the follow branch of `GetMultiLogs`'s pod loop: per pod, open
the stream (returning its error immediately, which leaves already spawned
pumps running — nothing cancels them), else spawn a follow pump.  Results:
spawned pod names, each spawned pump's full output (the pump always runs to
completion on its own stream), and the returned error. -/
def logsFollowLoop : List LogPod → List String × List (List String) × Option String
  | [] => ([], [], none)
  | p :: rest =>
    match p.openErr with
    | some e => ([], [], some e)
    | none =>
      let r := logsFollowLoop rest
      (p.name :: r.1, followPump p.name p.lines p.endErr :: r.2.1, r.2.2)

/-- `GetMultiLogs` with follow: namespace resolution and empty-set check in
front of the follow loop. -/
def getMultiLogsFollow (ns : String) (pods : List LogPod) :
    List String × List (List String) × Option String :=
  if pods.isEmpty then
    ([], [], some ("No pods in namespace: " ++ resolveNamespace ns))
  else logsFollowLoop pods

/-- `GetMultiLogs` without follow: namespace resolution and empty-set check in
front of the sequential drain loop. -/
def getMultiLogsNoFollow (ns : String) (pods : List LogPod) :
    String × List String × Option String :=
  if pods.isEmpty then
    ("", [], some ("No pods in namespace: " ++ resolveNamespace ns))
  else logsNoFollowLoop pods

/-- Warning `readRoutineToStdout` prints (to stderr) when the line scanner
stops with a non-nil error; a clean end of stream leaves `scanner.Err()` nil
and prints nothing. -/
def execPumpScanWarn (name : String) : Option String → List String
  | none => []
  | some e =>
    ["There was an error with the scanner in pod " ++ name ++ ": " ++ e ++ "\n"]

/-- Embedding of the interactive branch of `MultiExec`'s pod loop: per pod,
create the executor (returning its error immediately, leaving already spawned
session pumps running), else create the pod's input pipe, register its writer,
and spawn the pod's two pumps.  Results: spawned pod names, the registered
broadcast sinks, and the returned error. -/
def execInteractiveLoop : List ExecPod → List String × List PipeWriter × Option String
  | [] => ([], [], none)
  | p :: rest =>
    match p.openErr with
    | some e => ([], [], some e)
    | none =>
      let r := execInteractiveLoop rest
      (p.name :: r.1, okSink :: r.2.1, r.2.2)

/-- Observable outcome of interactive `MultiExec`: spawned sessions, final
sink states, whether the input broadcaster ran, and the returned error. -/
structure InteractiveOut where
  spawned : List String
  sinks : List PipeWriter
  broadcastRan : Bool
  err : Option String
deriving DecidableEq, Repr

/-- Embedding of `MultiExec` in interactive mode (stdin or TTY requested):
empty-set check, the interactive pod loop, and — only when every endpoint
opened — the console input broadcast over the registered sinks. -/
def multiExecInteractive (ns : String) (pods : List ExecPod)
    (stdinLines : List String) (scanErr : Option String) : InteractiveOut :=
  if pods.isEmpty then
    ⟨[], [], false, some ("No pods in namespace: " ++ resolveNamespace ns)⟩
  else
    match execInteractiveLoop pods with
    | (sp, ws, some e) => ⟨sp, ws, false, some e⟩
    | (sp, ws, none) =>
      let r := stdinToPods ws stdinLines scanErr
      ⟨sp, r.1, true, r.2⟩

lemma logsFollowLoop_allOpen {pods : List LogPod}
    (h : ∀ p ∈ pods, p.openErr = none) :
    logsFollowLoop pods =
      (pods.map LogPod.name,
       pods.map (fun p => followPump p.name p.lines p.endErr), none) := by
  induction pods with
  | nil => rfl
  | cons p rest ih =>
    have hp := h p (by simp)
    have hrest : ∀ q ∈ rest, q.openErr = none := fun q hq => h q (by simp [hq])
    simp [logsFollowLoop, hp, ih hrest]

lemma logsFollowLoop_openFail {good : List LogPod} {bad : LogPod} {e : String}
    (rest₂ : List LogPod) (hgood : ∀ p ∈ good, p.openErr = none)
    (hbad : bad.openErr = some e) :
    logsFollowLoop (good ++ bad :: rest₂) =
      (good.map LogPod.name,
       good.map (fun p => followPump p.name p.lines p.endErr), some e) := by
  induction good with
  | nil => simp [logsFollowLoop, hbad]
  | cons p rest ih =>
    have hp := hgood p (by simp)
    have hrest : ∀ q ∈ rest, q.openErr = none := fun q hq => hgood q (by simp [hq])
    simp [logsFollowLoop, hp, ih hrest]

lemma execInteractiveLoop_openFail {good : List ExecPod} {bad : ExecPod}
    {e : String} (rest₂ : List ExecPod)
    (hgood : ∀ p ∈ good, p.openErr = none) (hbad : bad.openErr = some e) :
    execInteractiveLoop (good ++ bad :: rest₂) =
      (good.map ExecPod.name, good.map (fun _ => okSink), some e) := by
  induction good with
  | nil => simp [execInteractiveLoop, hbad]
  | cons p rest ih =>
    have hp := hgood p (by simp)
    have hrest : ∀ q ∈ rest, q.openErr = none := fun q hq => hgood q (by simp [hq])
    simp [execInteractiveLoop, hp, ih hrest]

/-- Claim C4 counterexample: on an empty target set the operation does fail,
but the error text is "No pods in namespace: <ns>", not the claimed
"no targets in namespace: <ns>". -/
theorem claim_C4_counterexample :
    (multiExecOneShot "" "date" []).2 = some "No pods in namespace: default" ∧
    (multiExecOneShot "" "date" []).2 ≠ some "no targets in namespace: default" := by
  refine ⟨rfl, by decide⟩

/-- Claim C4 (amended): when resolving the selector yields zero targets, the
operation fails with the error "No pods in namespace: <ns>" (with <ns> the
resolved namespace) and performs no stream operations: in every mode no
endpoint is opened, no session or pump is started, and no input broadcast
runs. -/
theorem claim_C4_empty_target_set (ns command : String)
    (stdinLines : List String) (scanErr : Option String) :
    multiExecOneShot ns command [] =
      (⟨"", [], []⟩, some ("No pods in namespace: " ++ resolveNamespace ns)) ∧
    multiExecInteractive ns [] stdinLines scanErr =
      ⟨[], [], false, some ("No pods in namespace: " ++ resolveNamespace ns)⟩ ∧
    getMultiLogsFollow ns [] =
      ([], [], some ("No pods in namespace: " ++ resolveNamespace ns)) ∧
    getMultiLogsNoFollow ns [] =
      ("", [], some ("No pods in namespace: " ++ resolveNamespace ns)) :=
  ⟨rfl, rfl, rfl, rfl⟩

/-- Claim C5: a failure to open target k's stream endpoint aborts the whole
operation with that error: no target after k is opened or started (spawned
sessions are exactly the targets before k), the input broadcast never runs,
while the sessions already started for earlier targets keep their pumps,
whose outputs are still computed to completion from their own streams —
nothing cancels or closes them. -/
theorem claim_C5_open_failure_aborts (ns : String)
    (goodL : List LogPod) (badL : LogPod) (restL : List LogPod)
    (goodE : List ExecPod) (badE : ExecPod) (restE : List ExecPod)
    (stdinLines : List String) (scanErr : Option String) (e₁ e₂ : String)
    (hgoodL : ∀ p ∈ goodL, p.openErr = none) (hbadL : badL.openErr = some e₁)
    (hgoodE : ∀ p ∈ goodE, p.openErr = none) (hbadE : badE.openErr = some e₂) :
    getMultiLogsFollow ns (goodL ++ badL :: restL) =
      (goodL.map LogPod.name,
       goodL.map (fun p => followPump p.name p.lines p.endErr), some e₁) ∧
    multiExecInteractive ns (goodE ++ badE :: restE) stdinLines scanErr =
      ⟨goodE.map ExecPod.name, goodE.map (fun _ => okSink), false, some e₂⟩ := by
  constructor
  · have hne : (goodL ++ badL :: restL).isEmpty = false := by cases goodL <;> rfl
    simp only [getMultiLogsFollow, hne, Bool.false_eq_true, if_false]
    exact logsFollowLoop_openFail restL hgoodL hbadL
  · have hne : (goodE ++ badE :: restE).isEmpty = false := by cases goodE <;> rfl
    simp only [multiExecInteractive, hne, Bool.false_eq_true, if_false]
    rw [execInteractiveLoop_openFail restE hgoodE hbadE]

/-- A log pod whose stream ends cleanly. -/
def logPodOk : LogPod := ⟨"p", none, "", none, ["hello"], ReadEnd.eof⟩

/-- A log pod whose stream ends with a read failure. -/
def logPodFail : LogPod := ⟨"r", none, "", none, ["x"], ReadEnd.failed "reset"⟩

/-- A log pod whose stream cannot be opened. -/
def logPodBadOpen : LogPod := ⟨"q", some "open failed", "", none, [], ReadEnd.eof⟩

/-- An exec pod whose executor cannot be created. -/
def podCBadOpen : ExecPod := ⟨"c", some "no exec", none, ""⟩

theorem claim_C5_witness :
    (∀ p ∈ [logPodOk], p.openErr = none) ∧
    logPodBadOpen.openErr = some "open failed" ∧
    (∀ p ∈ [podA], p.openErr = none) ∧
    podCBadOpen.openErr = some "no exec" ∧
    (getMultiLogsFollow "" ([logPodOk] ++ logPodBadOpen :: [logPodFail]) =
      ([logPodOk].map LogPod.name,
       [logPodOk].map (fun p => followPump p.name p.lines p.endErr),
       some "open failed") ∧
     multiExecInteractive "" ([podA] ++ podCBadOpen :: []) ["hi"] none =
      ⟨[podA].map ExecPod.name, [podA].map (fun _ => okSink), false,
        some "no exec"⟩) :=
  ⟨by decide, rfl, by decide, rfl,
    claim_C5_open_failure_aborts "" [logPodOk] logPodBadOpen [logPodFail]
      [podA] podCBadOpen [] ["hi"] none "open failed" "no exec"
      (by decide) rfl (by decide) rfl⟩

/-! ### Color-slot assignment -/

/-- The fixed palette initialized by the logs command (7 colors, shared with
the exec command via the package-level `colors` slice). -/
def colorsPalette : List String :=
  ["blue", "white", "green", "magenta", "red", "cyan", "yellow"]

/-- A display color slot: a palette index, or the neutral uncolored white. -/
inductive ColorSlot
  | palette (i : Nat)
  | neutral
deriving DecidableEq, Repr

/-- Color assignment of `GetMultiLogs`: `useColor` is forced off when more
than 7 pods matched, then each pod at index `ndx` gets `colors[ndx]` when
color is on, else the neutral color. -/
def logsAssignColor (useColor : Bool) (numPods ndx : Nat) : ColorSlot :=
  let uc := if numPods > 7 then false else useColor
  if uc then ColorSlot.palette ndx else ColorSlot.neutral

/-- Color assignment of `MultiExec`: each pod at index `ndx` gets
`colors[ndx % len(colors)]` when color is on, else the neutral color. -/
def execAssignColor (useColor : Bool) (ndx : Nat) : ColorSlot :=
  if useColor then ColorSlot.palette (ndx % colorsPalette.length)
  else ColorSlot.neutral

/-- Claim C6: with colorization requested, log mode disables color entirely
when more than 7 targets are resolved (every label gets the neutral color),
while exec mode assigns index `ndx` palette color `ndx mod 7`, silently
reusing colors past 7 targets. -/
theorem claim_C6_color_mode_split (numPods ndx : Nat) (h : 7 < numPods) :
    logsAssignColor true numPods ndx = ColorSlot.neutral ∧
    execAssignColor true ndx = ColorSlot.palette (ndx % 7) := by
  constructor
  · simp [logsAssignColor, h]
  · simp [execAssignColor, colorsPalette]

theorem claim_C6_witness :
    7 < 8 ∧
    (logsAssignColor true 8 9 = ColorSlot.neutral ∧
     execAssignColor true 9 = ColorSlot.palette (9 % 7)) :=
  ⟨by decide, claim_C6_color_mode_split 8 9 (by decide)⟩

/-- Claim C7 counterexample: at a clean end of stream (no lines left, final
read result `io.EOF`) the log-follow pump still prints the per-target
"Error from routine for ..." warning, although the claim says a clean
end-of-stream produces no warning. -/
theorem claim_C7_counterexample :
    followPump "p" [] ReadEnd.eof = [routineErrLine "p" "EOF"] ∧
    routineErrLine "p" "EOF" = "Error from routine for p : EOF\n" :=
  ⟨rfl, rfl⟩

/-- Claim C7 (amended): an output pump exits on every read error including
clean end-of-stream, and a read error in one pump neither aborts sibling
pumps nor fails the operation; however the log-follow pump prints the
"Error from routine for <target>: <cause>" warning on *every* read error,
including clean end-of-stream, while the exec output pump prints a warning
(with different scanner wording) only when the error is not a clean
end-of-stream. -/
theorem claim_C7_pump_exit_and_warnings :
    (∀ name lines e, followPump name lines e =
        lines.map (fun l => "POD " ++ name ++ ": " ++ goQuote l ++ "\n") ++
          [routineErrLine name (readEndMsg e)]) ∧
    (∀ name, execPumpScanWarn name none = []) ∧
    (∀ name e, execPumpScanWarn name (some e) =
        ["There was an error with the scanner in pod " ++ name ++ ": " ++
          e ++ "\n"]) ∧
    (∀ pods : List LogPod, (∀ p ∈ pods, p.openErr = none) →
        logsFollowLoop pods =
          (pods.map LogPod.name,
           pods.map (fun p => followPump p.name p.lines p.endErr), none)) := by
  refine ⟨?_, fun _ => rfl, fun _ _ => rfl, fun pods h => logsFollowLoop_allOpen h⟩
  intro name lines e
  induction lines with
  | nil => rfl
  | cons l rest ih => simp [followPump, ih]

theorem claim_C7_witness :
    (∀ p ∈ [logPodOk, logPodFail], p.openErr = none) ∧
    logsFollowLoop [logPodOk, logPodFail] =
      ([logPodOk, logPodFail].map LogPod.name,
       [logPodOk, logPodFail].map (fun p => followPump p.name p.lines p.endErr),
       none) :=
  ⟨by decide,
    claim_C7_pump_exit_and_warnings.2.2.2 [logPodOk, logPodFail] (by decide)⟩

/-! ### The console writer under concurrent output pumps

`readRoutineToStdout` runs once per pod.  Its loop body is: acquire the
shared print lock, print the label (`col.Printf("%s: ", name)`), print the
sanitized line (`fmt.Println(vtclean.Clean(...))`), release the lock.  The
machine below runs one such pump per pod under an arbitrary scheduler, with
the lock and the console output as the only shared state. -/

/-- Position of one output pump inside its print loop. -/
inductive Phase
  | idle
  | locked
  | labeled
  | printed
deriving DecidableEq, Repr

/-- One output pump: its pod name, the lines its scanner has not yet printed,
and its position in the loop body. -/
structure Pump where
  name : String
  pending : List String
  phase : Phase
deriving DecidableEq, Repr

/-- Shared state: the pumps, the holder of the print lock, and the console
output as a sequence of written chunks tagged with the writing pump. -/
structure ConsoleState where
  pumps : List Pump
  lockHolder : Option Nat
  output : List (Nat × String)
deriving DecidableEq, Repr

/-- The label chunk `col.Printf("%s: ", name)` writes. -/
def pumpLabel (name : String) : String := name ++ ": "

/-- One scheduler step of pump `i`: an idle pump with lines left tries to
acquire the lock (blocking if held); the lock holder prints the label, then
the sanitized line followed by a newline, then releases the lock.  A pump
with no lines left, or a blocked pump, makes no progress. -/
def pumpStep (st : ConsoleState) (i : Nat) : ConsoleState :=
  match st.pumps[i]? with
  | none => st
  | some p =>
    match p.phase, p.pending with
    | Phase.idle, [] => st
    | Phase.idle, _ :: _ =>
      match st.lockHolder with
      | some _ => st
      | none =>
        { st with pumps := st.pumps.set i { p with phase := Phase.locked },
                  lockHolder := some i }
    | Phase.locked, _ =>
      { st with pumps := st.pumps.set i { p with phase := Phase.labeled },
                output := st.output ++ [(i, pumpLabel p.name)] }
    | Phase.labeled, l :: rest =>
      { st with
          pumps := st.pumps.set i { p with pending := rest, phase := Phase.printed },
          output := st.output ++ [(i, vtcleanClean l ++ "\n")] }
    | Phase.labeled, [] => st
    | Phase.printed, _ =>
      { st with pumps := st.pumps.set i { p with phase := Phase.idle },
                lockHolder := none }

/-- Run the pumps under an arbitrary schedule. -/
def runSched (st : ConsoleState) : List Nat → ConsoleState
  | [] => st
  | i :: rest => runSched (pumpStep st i) rest

/-- All pumps start idle on their full line lists, lock free, console empty. -/
def initConsole (pumps : List Pump) : ConsoleState := ⟨pumps, none, []⟩

/-- The name of pump `i` in the initial pump list. -/
def pumpNameAt (P0 : List Pump) (i : Nat) : String :=
  ((P0[i]?).map Pump.name).getD ""

/-- The two console chunks one complete labeled line consists of: the label
of its pump, then the sanitized line text with its newline. -/
def renderBlock (P0 : List Pump) (b : Nat × String) : List (Nat × String) :=
  [(b.1, pumpLabel (pumpNameAt P0 b.1)), (b.1, vtcleanClean b.2 ++ "\n")]

/-- Console contents consisting solely of complete labeled lines. -/
def renderBlocks (P0 : List Pump) : List (Nat × String) → List (Nat × String)
  | [] => []
  | b :: bs => renderBlock P0 b ++ renderBlocks P0 bs

/-- The partial chunk allowed at the end of the console: the label already
written by the lock holder when it is between its two prints. -/
def lockExtra (st : ConsoleState) : List (Nat × String) :=
  match st.lockHolder with
  | none => []
  | some i =>
    match st.pumps[i]? with
    | none => []
    | some p => if p.phase = Phase.labeled then [(i, pumpLabel p.name)] else []

/-- Invariant of the console machine relative to the initial pumps `P0`:
lengths and names are stable, the lock discipline holds (exactly the holder
is inside the loop body, and it still has a line to print while before its
line print), and the console output is a sequence of complete labeled lines
— one block per already printed line, in print order — followed by at most
the holder's lone label; each pump's printed lines are a prefix of its
original lines in order. -/
structure ConsoleInv (P0 : List Pump) (st : ConsoleState) : Prop where
  len : st.pumps.length = P0.length
  names : ∀ i : Nat, (st.pumps[i]?).map Pump.name = (P0[i]?).map Pump.name
  holderSome : ∀ i : Nat, st.lockHolder = some i →
    ∃ p, st.pumps[i]? = some p ∧ p.phase ≠ Phase.idle
  nonHolderIdle : ∀ (i : Nat) (p : Pump), st.pumps[i]? = some p →
    st.lockHolder ≠ some i → p.phase = Phase.idle
  pendNe : ∀ (i : Nat) (p : Pump), st.pumps[i]? = some p →
    (p.phase = Phase.locked ∨ p.phase = Phase.labeled) → p.pending ≠ []
  blocks : ∃ bs : List (Nat × String),
    st.output = renderBlocks P0 bs ++ lockExtra st ∧
    ∀ (i : Nat) (p0 p : Pump), P0[i]? = some p0 → st.pumps[i]? = some p →
      p0.pending = (bs.filter (fun b => b.1 = i)).map Prod.snd ++ p.pending

lemma renderBlocks_append (P0 : List Pump) (bs₁ bs₂ : List (Nat × String)) :
    renderBlocks P0 (bs₁ ++ bs₂) = renderBlocks P0 bs₁ ++ renderBlocks P0 bs₂ := by
  induction bs₁ with
  | nil => rfl
  | cons b bs ih => simp [renderBlocks, ih]

lemma consoleInv_init {P0 : List Pump} (h : ∀ p ∈ P0, p.phase = Phase.idle) :
    ConsoleInv P0 (initConsole P0) := by
  refine ⟨rfl, fun i => rfl, ?_, ?_, ?_, ?_⟩
  · intro i hi
    exact absurd hi (by simp [initConsole])
  · intro i p hp _
    exact h p (List.getElem?_mem hp)
  · intro i p hp hph
    have := h p (List.getElem?_mem hp)
    rcases hph with h1 | h1 <;> rw [h1] at this <;> exact absurd this (by simp)
  · refine ⟨[], by simp [initConsole, renderBlocks, lockExtra], ?_⟩
    intro i p0 p hp0 hp
    have : p0 = p := by
      rw [show (initConsole P0).pumps = P0 from rfl] at hp
      rw [hp0] at hp
      exact Option.some_inj.mp hp
    simp [this]

lemma pumpNameAt_eq {P0 : List Pump} {st : ConsoleState} (inv : ConsoleInv P0 st)
    {i : Nat} {p : Pump} (hp : st.pumps[i]? = some p) :
    pumpNameAt P0 i = p.name := by
  have hni := inv.names i
  rw [hp] at hni
  unfold pumpNameAt
  rw [← hni]
  rfl

lemma filter_snoc_eq (bs : List (Nat × String)) (i : Nat) (l : String) :
    (bs ++ [(i, l)]).filter (fun b => b.1 = i) =
      bs.filter (fun b => b.1 = i) ++ [(i, l)] := by
  simp [List.filter_append]

lemma filter_snoc_ne (bs : List (Nat × String)) {i j : Nat} (hne : j ≠ i)
    (l : String) :
    (bs ++ [(i, l)]).filter (fun b => b.1 = j) =
      bs.filter (fun b => b.1 = j) := by
  simp [List.filter_append, Ne.symm hne]

/-- Every scheduler step preserves the console invariant. -/
lemma pumpStep_inv {P0 : List Pump} {st : ConsoleState} (inv : ConsoleInv P0 st)
    (i : Nat) : ConsoleInv P0 (pumpStep st i) := by
  cases hp : st.pumps[i]? with
  | none => simpa [pumpStep, hp] using inv
  | some p =>
    have hlt : i < st.pumps.length := (List.getElem?_eq_some.mp hp).1
    cases hph : p.phase with
    | idle =>
      cases hpd : p.pending with
      | nil => simpa [pumpStep, hp, hph, hpd] using inv
      | cons l ls =>
        cases hlk : st.lockHolder with
        | some j => simpa [pumpStep, hp, hph, hpd, hlk] using inv
        | none =>
          have hstep : pumpStep st i =
              { st with pumps := st.pumps.set i { p with phase := Phase.locked },
                        lockHolder := some i } := by
            simp [pumpStep, hp, hph, hpd, hlk]
          rw [hstep]
          refine ⟨?_, ?_, ?_, ?_, ?_, ?_⟩
          · simpa using inv.len
          · intro j
            rcases eq_or_ne j i with rfl | hji
            · rw [List.getElem?_set_eq hlt]
              have hni := inv.names j
              rw [hp] at hni
              simpa using hni
            · rw [List.getElem?_set_ne (Ne.symm hji)]
              exact inv.names j
          · intro j hj
            have hji : j = i := by
              simpa using hj.symm
            subst hji
            exact ⟨_, List.getElem?_set_eq hlt, by simp⟩
          · intro j q hq hjne
            have hji : j ≠ i := fun h => hjne (by simp [h])
            rw [List.getElem?_set_ne (Ne.symm hji)] at hq
            exact inv.nonHolderIdle j q hq (by simp [hlk])
          · intro j q hq hqph
            rcases eq_or_ne j i with rfl | hji
            · rw [List.getElem?_set_eq hlt] at hq
              have : q = { p with phase := Phase.locked } :=
                Option.some_inj.mp hq.symm
              simp [this, hpd]
            · rw [List.getElem?_set_ne (Ne.symm hji)] at hq
              have := inv.nonHolderIdle j q hq (by simp [hlk])
              rcases hqph with h1 | h1 <;> rw [h1] at this <;>
                exact absurd this (by simp)
          · obtain ⟨bs, hout, hpend⟩ := inv.blocks
            refine ⟨bs, ?_, ?_⟩
            · have hextOld : lockExtra st = [] := by
                simp [lockExtra, hlk]
              have hextNew : lockExtra
                  { st with
                    pumps := st.pumps.set i { p with phase := Phase.locked },
                    lockHolder := some i } = [] := by
                simp [lockExtra, List.getElem?_set_eq hlt]
              rw [hextNew]
              rw [hextOld] at hout
              simpa using hout
            · intro j p0 q hp0 hq
              rcases eq_or_ne j i with rfl | hji
              · rw [List.getElem?_set_eq hlt] at hq
                have : q = { p with phase := Phase.locked } :=
                  Option.some_inj.mp hq.symm
                rw [this]
                exact hpend j p0 p hp0 hp
              · rw [List.getElem?_set_ne (Ne.symm hji)] at hq
                exact hpend j p0 q hp0 hq
    | locked =>
      have hold : st.lockHolder = some i := by
        by_contra hne
        have := inv.nonHolderIdle i p hp hne
        rw [hph] at this
        exact absurd this (by simp)
      have hstep : pumpStep st i =
          { st with pumps := st.pumps.set i { p with phase := Phase.labeled },
                    output := st.output ++ [(i, pumpLabel p.name)] } := by
        cases hpd : p.pending <;> simp [pumpStep, hp, hph, hpd]
      rw [hstep]
      refine ⟨?_, ?_, ?_, ?_, ?_, ?_⟩
      · simpa using inv.len
      · intro j
        rcases eq_or_ne j i with rfl | hji
        · rw [List.getElem?_set_eq hlt]
          have hni := inv.names j
          rw [hp] at hni
          simpa using hni
        · rw [List.getElem?_set_ne (Ne.symm hji)]
          exact inv.names j
      · intro j hj
        have hji : j = i := by
          rw [hold] at hj
          simpa using hj.symm
        subst hji
        exact ⟨_, List.getElem?_set_eq hlt, by simp⟩
      · intro j q hq hjne
        have hji : j ≠ i := by
          intro h
          subst h
          rw [hold] at hjne
          exact hjne rfl
        rw [List.getElem?_set_ne (Ne.symm hji)] at hq
        refine inv.nonHolderIdle j q hq ?_
        rw [hold]
        simp [Ne.symm hji]
      · intro j q hq hqph
        rcases eq_or_ne j i with rfl | hji
        · rw [List.getElem?_set_eq hlt] at hq
          have hqe : q = { p with phase := Phase.labeled } :=
            Option.some_inj.mp hq.symm
          have := inv.pendNe j p hp (Or.inl hph)
          simpa [hqe] using this
        · rw [List.getElem?_set_ne (Ne.symm hji)] at hq
          exact inv.pendNe j q hq hqph
      · obtain ⟨bs, hout, hpend⟩ := inv.blocks
        refine ⟨bs, ?_, ?_⟩
        · have hextOld : lockExtra st = [] := by
            simp [lockExtra, hold, hp, hph]
          have hextNew : lockExtra
              { st with pumps := st.pumps.set i { p with phase := Phase.labeled },
                        output := st.output ++ [(i, pumpLabel p.name)] } =
              [(i, pumpLabel p.name)] := by
            simp [lockExtra, hold, List.getElem?_set_eq hlt]
          rw [hextNew]
          rw [hextOld, List.append_nil] at hout
          simp [hout]
        · intro j p0 q hp0 hq
          rcases eq_or_ne j i with rfl | hji
          · rw [List.getElem?_set_eq hlt] at hq
            have : q = { p with phase := Phase.labeled } :=
              Option.some_inj.mp hq.symm
            rw [this]
            exact hpend j p0 p hp0 hp
          · rw [List.getElem?_set_ne (Ne.symm hji)] at hq
            exact hpend j p0 q hp0 hq
    | labeled =>
      have hold : st.lockHolder = some i := by
        by_contra hne
        have := inv.nonHolderIdle i p hp hne
        rw [hph] at this
        exact absurd this (by simp)
      cases hpd : p.pending with
      | nil =>
        exact absurd hpd (inv.pendNe i p hp (Or.inr hph))
      | cons l ls =>
        have hstep : pumpStep st i =
            { st with
                pumps := st.pumps.set i
                  { p with pending := ls, phase := Phase.printed },
                output := st.output ++ [(i, vtcleanClean l ++ "\n")] } := by
          simp [pumpStep, hp, hph, hpd]
        rw [hstep]
        refine ⟨?_, ?_, ?_, ?_, ?_, ?_⟩
        · simpa using inv.len
        · intro j
          rcases eq_or_ne j i with rfl | hji
          · rw [List.getElem?_set_eq hlt]
            have hni := inv.names j
            rw [hp] at hni
            simpa using hni
          · rw [List.getElem?_set_ne (Ne.symm hji)]
            exact inv.names j
        · intro j hj
          have hji : j = i := by
            rw [hold] at hj
            simpa using hj.symm
          subst hji
          exact ⟨_, List.getElem?_set_eq hlt, by simp⟩
        · intro j q hq hjne
          have hji : j ≠ i := by
            intro h
            subst h
            rw [hold] at hjne
            exact hjne rfl
          rw [List.getElem?_set_ne (Ne.symm hji)] at hq
          refine inv.nonHolderIdle j q hq ?_
          rw [hold]
          simp [Ne.symm hji]
        · intro j q hq hqph
          rcases eq_or_ne j i with rfl | hji
          · rw [List.getElem?_set_eq hlt] at hq
            have hqe : q = { p with pending := ls, phase := Phase.printed } :=
              Option.some_inj.mp hq.symm
            rcases hqph with h1 | h1 <;> rw [hqe] at h1 <;>
              exact absurd h1 (by simp)
          · rw [List.getElem?_set_ne (Ne.symm hji)] at hq
            exact inv.pendNe j q hq hqph
        · obtain ⟨bs, hout, hpend⟩ := inv.blocks
          refine ⟨bs ++ [(i, l)], ?_, ?_⟩
          · have hextOld : lockExtra st = [(i, pumpLabel p.name)] := by
              simp [lockExtra, hold, hp, hph]
            have hextNew : lockExtra
                { st with
                    pumps := st.pumps.set i
                      { p with pending := ls, phase := Phase.printed },
                    output := st.output ++ [(i, vtcleanClean l ++ "\n")] } =
                [] := by
              simp [lockExtra, hold, List.getElem?_set_eq hlt]
            rw [hextNew, List.append_nil]
            have hname : pumpNameAt P0 i = p.name := pumpNameAt_eq inv hp
            show st.output ++ [(i, vtcleanClean l ++ "\n")] =
              renderBlocks P0 (bs ++ [(i, l)])
            rw [renderBlocks_append, hout, hextOld]
            simp [renderBlocks, renderBlock, hname]
          · intro j p0 q hp0 hq
            rcases eq_or_ne j i with rfl | hji
            · rw [List.getElem?_set_eq hlt] at hq
              have hqe : q = { p with pending := ls, phase := Phase.printed } :=
                Option.some_inj.mp hq.symm
              rw [hqe]
              have := hpend j p0 p hp0 hp
              rw [this, hpd, filter_snoc_eq]
              simp
            · rw [List.getElem?_set_ne (Ne.symm hji)] at hq
              rw [filter_snoc_ne bs hji l]
              exact hpend j p0 q hp0 hq
    | printed =>
      have hold : st.lockHolder = some i := by
        by_contra hne
        have := inv.nonHolderIdle i p hp hne
        rw [hph] at this
        exact absurd this (by simp)
      have hstep : pumpStep st i =
          { st with pumps := st.pumps.set i { p with phase := Phase.idle },
                    lockHolder := none } := by
        cases hpd : p.pending <;> simp [pumpStep, hp, hph, hpd]
      rw [hstep]
      refine ⟨?_, ?_, ?_, ?_, ?_, ?_⟩
      · simpa using inv.len
      · intro j
        rcases eq_or_ne j i with rfl | hji
        · rw [List.getElem?_set_eq hlt]
          have hni := inv.names j
          rw [hp] at hni
          simpa using hni
        · rw [List.getElem?_set_ne (Ne.symm hji)]
          exact inv.names j
      · intro j hj
        exact absurd hj (by simp)
      · intro j q hq hjne
        rcases eq_or_ne j i with rfl | hji
        · rw [List.getElem?_set_eq hlt] at hq
          have : q = { p with phase := Phase.idle } :=
            Option.some_inj.mp hq.symm
          simp [this]
        · rw [List.getElem?_set_ne (Ne.symm hji)] at hq
          refine inv.nonHolderIdle j q hq ?_
          rw [hold]
          simp [Ne.symm hji]
      · intro j q hq hqph
        rcases eq_or_ne j i with rfl | hji
        · rw [List.getElem?_set_eq hlt] at hq
          have hqe : q = { p with phase := Phase.idle } :=
            Option.some_inj.mp hq.symm
          rcases hqph with h1 | h1 <;> rw [hqe] at h1 <;>
            exact absurd h1 (by simp)
        · rw [List.getElem?_set_ne (Ne.symm hji)] at hq
          exact inv.pendNe j q hq hqph
      · obtain ⟨bs, hout, hpend⟩ := inv.blocks
        refine ⟨bs, ?_, ?_⟩
        · have hextOld : lockExtra st = [] := by
            simp [lockExtra, hold, hp, hph]
          have hextNew : lockExtra
              { st with pumps := st.pumps.set i { p with phase := Phase.idle },
                        lockHolder := none } = [] := by
            simp [lockExtra]
          rw [hextNew]
          rw [hextOld] at hout
          simpa using hout
        · intro j p0 q hp0 hq
          rcases eq_or_ne j i with rfl | hji
          · rw [List.getElem?_set_eq hlt] at hq
            have : q = { p with phase := Phase.idle } :=
              Option.some_inj.mp hq.symm
            rw [this]
            exact hpend j p0 p hp0 hp
          · rw [List.getElem?_set_ne (Ne.symm hji)] at hq
            exact hpend j p0 q hp0 hq

lemma runSched_inv {P0 : List Pump} (sched : List Nat) :
    ∀ {st : ConsoleState}, ConsoleInv P0 st → ConsoleInv P0 (runSched st sched) := by
  induction sched with
  | nil => intro st inv; exact inv
  | cons i rest ih => intro st inv; exact ih (pumpStep_inv inv i)

/-- Two pumps with one line each, for exhibiting schedule-dependent
cross-target ordering. -/
def demoPumps : List Pump :=
  [⟨"a", ["x"], Phase.idle⟩, ⟨"b", ["y"], Phase.idle⟩]

/-- Claim C9: for every schedule under which all pumps run to completion, the
console output is a sequence of complete single-label lines — label chunk and
sanitized text chunk adjacent, never interleaved character-by-character with
another pump's chunks — and the lines of any one pump appear in exactly the
order of its own stream; across different pumps the order depends on the
schedule (two schedules of the same two pumps produce differently ordered
consoles). -/
theorem claim_C9_console_atomic_ordered (P0 : List Pump) (sched : List Nat)
    (hidle : ∀ p ∈ P0, p.phase = Phase.idle)
    (hdone : ∀ p ∈ (runSched (initConsole P0) sched).pumps,
      p.pending = [] ∧ p.phase = Phase.idle) :
    (∃ bs : List (Nat × String),
      (runSched (initConsole P0) sched).output = renderBlocks P0 bs ∧
      ∀ (i : Nat) (p0 : Pump), P0[i]? = some p0 →
        (bs.filter (fun b => b.1 = i)).map Prod.snd = p0.pending) ∧
    (∃ s₁ s₂ : List Nat,
      (runSched (initConsole demoPumps) s₁).output ≠
        (runSched (initConsole demoPumps) s₂).output) := by
  constructor
  · have inv := runSched_inv sched (consoleInv_init hidle)
    have hlk : (runSched (initConsole P0) sched).lockHolder = none := by
      cases hl : (runSched (initConsole P0) sched).lockHolder with
      | none => rfl
      | some i =>
        obtain ⟨p, hp, hph⟩ := inv.holderSome i hl
        exact absurd (hdone p (List.getElem?_mem hp)).2 hph
    obtain ⟨bs, hout, hpend⟩ := inv.blocks
    refine ⟨bs, ?_, ?_⟩
    · rw [hout]
      simp [lockExtra, hlk]
    · intro i p0 hp0
      have hi : i < (runSched (initConsole P0) sched).pumps.length := by
        rw [inv.len]
        exact (List.getElem?_eq_some.mp hp0).1
      have hfp : (runSched (initConsole P0) sched).pumps[i]? =
          some ((runSched (initConsole P0) sched).pumps[i]) :=
        List.getElem?_eq_getElem hi
      have hpe := hpend i p0 _ hp0 hfp
      have hnil := (hdone _ (List.getElem?_mem hfp)).1
      rw [hnil, List.append_nil] at hpe
      exact hpe.symm
  · exact ⟨[0, 0, 0, 0, 1, 1, 1, 1], [1, 1, 1, 1, 0, 0, 0, 0], by decide⟩

theorem claim_C9_witness :
    (∀ p ∈ demoPumps, p.phase = Phase.idle) ∧
    (∀ p ∈ (runSched (initConsole demoPumps) [0, 0, 0, 0, 1, 1, 1, 1]).pumps,
      p.pending = [] ∧ p.phase = Phase.idle) ∧
    ((∃ bs : List (Nat × String),
      (runSched (initConsole demoPumps) [0, 0, 0, 0, 1, 1, 1, 1]).output =
        renderBlocks demoPumps bs ∧
      ∀ (i : Nat) (p0 : Pump), demoPumps[i]? = some p0 →
        (bs.filter (fun b => b.1 = i)).map Prod.snd = p0.pending) ∧
    (∃ s₁ s₂ : List Nat,
      (runSched (initConsole demoPumps) s₁).output ≠
        (runSched (initConsole demoPumps) s₂).output)) :=
  ⟨by decide, by decide,
    claim_C9_console_atomic_ordered demoPumps [0, 0, 0, 0, 1, 1, 1, 1]
      (by decide) (by decide)⟩

/-- Claim C2 (amended): sanitization happens only in the interactive exec
output pump, where every chunk written under the print lock is either the pod
label or the vtclean-sanitized line text with its newline — and sanitized
text never carries a raw escape character; in one-shot exec mode the
session's raw stream bytes reach the console unfiltered (they are copied
verbatim after the header), and the non-follow log dump likewise copies the
raw stream to the console. -/
theorem claim_C2_sanitize_interactive_only :
    (∀ s, containsEsc (vtcleanClean s) = false) ∧
    (∀ (st : ConsoleState) (i : Nat),
      (pumpStep st i).output = st.output ∨
      ∃ p, st.pumps[i]? = some p ∧
        ((pumpStep st i).output = st.output ++ [(i, pumpLabel p.name)] ∨
         ∃ l rest, p.pending = l :: rest ∧
           (pumpStep st i).output = st.output ++ [(i, vtcleanClean l ++ "\n")])) ∧
    (∀ (command : String) (p : ExecPod), p.openErr = none →
      (execOneShotLoop command [p]).1.console =
        oneShotHeader command p.name ++ p.outBytes) ∧
    (∀ p : LogPod, p.openErr = none → p.copyErr = none →
      logsNoFollowLoop [p] = (logsHeader p.name ++ p.content, [p.name], none)) := by
  refine ⟨vtcleanClean_no_esc, ?_, ?_, ?_⟩
  · intro st i
    cases hp : st.pumps[i]? with
    | none => left; simp [pumpStep, hp]
    | some p =>
      cases hph : p.phase with
      | idle =>
        cases hpd : p.pending with
        | nil => left; simp [pumpStep, hp, hph, hpd]
        | cons l ls =>
          cases hlk : st.lockHolder with
          | some j => left; simp [pumpStep, hp, hph, hpd, hlk]
          | none => left; simp [pumpStep, hp, hph, hpd, hlk]
      | locked =>
        right
        refine ⟨p, rfl, Or.inl ?_⟩
        cases hpd : p.pending <;> simp [pumpStep, hp, hph, hpd]
      | labeled =>
        cases hpd : p.pending with
        | nil => left; simp [pumpStep, hp, hph, hpd]
        | cons l ls =>
          right
          exact ⟨p, rfl, Or.inr ⟨l, ls, hpd, by simp [pumpStep, hp, hph, hpd]⟩⟩
      | printed =>
        left
        cases hpd : p.pending <;> simp [pumpStep, hp, hph, hpd]
  · intro command p hopen
    cases hrun : p.runErr <;>
      simp [execOneShotLoop, hopen, hrun]
  · intro p hopen hcopy
    simp [logsNoFollowLoop, hopen, hcopy]

theorem claim_C2_witness :
    containsEsc (vtcleanClean escDemo) = false ∧ podA.openErr = none ∧
    (execOneShotLoop "date" [podA]).1.console =
      oneShotHeader "date" podA.name ++ podA.outBytes :=
  ⟨claim_C2_sanitize_interactive_only.1 escDemo, rfl,
    claim_C2_sanitize_interactive_only.2.2.1 "date" podA rfl⟩

end Argonaut
